import Mathlib

/-!
Shallow embedding of the Theme Ranking & Forward-Return Engine of
`src/web/temaWeb-v2/app.py`.

Conventions used throughout:
* Python strings are Lean `String`s; `str.strip()` is modelled by `pyStrip`
  (Python's ASCII whitespace set).
* Calendar days handed to `datetime`/`timedelta` are modelled as `Int` day
  ordinals (the proleptic-Gregorian day line, on which `timedelta(days=i)`
  is addition).
* The pykrx price source is a parameter: probing
  `get_market_ohlcv_by_date(d, d, "005930")` is a function
  `src : Int → Option Int` returning the date of the last bar of the
  returned frame (`none` for an empty frame or an exception), and
  per-ticker fetches are `raw : Int → String → Option (ℚ × ℚ)` returning
  (close, high).
* Machine floats of the source are modelled as exact rationals; the
  `"{v:+.2f}"` float format is modelled by exact rational rounding to two
  decimals, which agrees with the source at every value exercised here.
-/

namespace TemaWeb

/-- Whitespace characters stripped by Python's `str.strip()`. -/
def isPySpace (c : Char) : Bool :=
  c = ' ' || c = '\t' || c = '\n' || c = '\r' || c = '\x0b' || c = '\x0c'

/-- Strip leading and trailing whitespace from a character list. -/
def stripChars (l : List Char) : List Char :=
  ((l.dropWhile isPySpace).reverse.dropWhile isPySpace).reverse

/-- Python `str.strip()`. -/
def pyStrip (s : String) : String := String.mk (stripChars s.data)

/-- Numeric value of a decimal digit character. -/
def digitVal (c : Char) : Nat := c.toNat - 48

/-- Value of a list of decimal digit characters, most significant first. -/
def digitsToNat (l : List Char) : Nat := l.foldl (fun n c => 10 * n + digitVal c) 0

/-- Length of the run of decimal digits at the head of the list. -/
def digitPrefixLen : List Char → Nat
  | [] => 0
  | c :: r => if c.isDigit then digitPrefixLen r + 1 else 0

/-- Length of the longest run of consecutive decimal digits in the list. -/
def maxDigitRun : List Char → Nat
  | [] => 0
  | c :: r => max (digitPrefixLen (c :: r)) (maxDigitRun r)

/-- Leftmost match of the regex `(\d{5,6})` used by `_norm_ticker`:
the first position holding at least five consecutive digits wins, and the
greedy quantifier takes six digits when available. -/
def findTickerRun : List Char → Option (List Char)
  | [] => none
  | c :: r =>
    if 5 ≤ digitPrefixLen (c :: r) then
      some ((c :: r).take (min (digitPrefixLen (c :: r)) 6))
    else findTickerRun r

/-- `_norm_ticker(code)` from app.py: strip, search for a 5-6 digit run,
and zero-pad the match to six characters; empty string when no run found. -/
def _norm_ticker (code : String) : String :=
  match findTickerRun (stripChars code.data) with
  | none => ""
  | some ds => String.mk (List.replicate (6 - ds.length) '0' ++ ds)

/-- `_yymmdd_to_yyyymmdd` from app.py, with the 00-69 → 2000s pivot. -/
def _yymmdd_to_yyyymmdd (yymmdd : String) : String :=
  let t := stripChars yymmdd.data
  if t.length = 6 ∧ t.all Char.isDigit = true then
    let yy := digitsToNat (t.take 2)
    let yyyy := if yy ≤ 69 then 2000 + yy else 1900 + yy
    String.mk ((Nat.repr yyyy).data ++ t.drop 2)
  else ""

/-- `_yyyymmdd_to_yymmdd` from app.py: drop dashes, strip, keep the last
six of eight digits. -/
def _yyyymmdd_to_yymmdd (yyyymmdd : String) : String :=
  let t := stripChars (yyyymmdd.data.filter (fun c => c ≠ '-'))
  if t.length = 8 ∧ t.all Char.isDigit = true then String.mk (t.drop 2) else ""

/-- Python `int()` applied to a float value: truncation toward zero. -/
def truncQ (q : ℚ) : Int := if 0 ≤ q then q.floor else q.ceil

/-- Python `str(int(v))` for a numeric value `v`. -/
def intStr (q : ℚ) : String :=
  let n := truncQ q
  if n < 0 then "-" ++ Nat.repr n.natAbs else Nat.repr n.natAbs

/-- `_fmt_pct(v)` from app.py, i.e. `f"{v:+.2f}%"`: an explicit sign, the
value rounded to two decimals, and a percent sign. -/
def fmtPct (v : ℚ) : String :=
  let n : Int := (v * 100 + 1 / 2).floor
  let a := n.natAbs
  let sign := if v < 0 then "-" else "+"
  let frac := a % 100
  sign ++ Nat.repr (a / 100) ++ "." ++
    (if frac < 10 then "0" ++ Nat.repr frac else Nat.repr frac) ++ "%"

/-- Plain decimal grammar accepted by `pandas.to_numeric`: digits with an
optional fractional part (scientific notation is not exercised by this
code path and is omitted). -/
def parseDecimalCore (l : List Char) : Option ℚ :=
  let ip := l.takeWhile Char.isDigit
  match l.dropWhile Char.isDigit with
  | [] => if ip.isEmpty then none else some (digitsToNat ip)
  | '.' :: fr =>
      if fr.all Char.isDigit = true ∧ ¬(ip.isEmpty = true ∧ fr.isEmpty = true) then
        some ((digitsToNat ip : ℚ) + (digitsToNat fr : ℚ) / (10 : ℚ) ^ fr.length)
      else none
  | _ => none

/-- `pandas.to_numeric(s, errors="coerce")` on a single cell: `none` is the
NaN produced for a malformed value. -/
def pdToNumeric (s : String) : Option ℚ :=
  match s.data with
  | '+' :: t => parseDecimalCore t
  | '-' :: t => (parseDecimalCore t).map (fun q => -q)
  | t => parseDecimalCore t

/-- Python's substring test `sub in s`. -/
def containsSub (s sub : String) : Bool := decide (sub.data <:+: s.data)

/-- `_df_has_exact_date(df, date8)` from app.py: the probe counts only when
the returned frame's last bar date equals the probed day exactly, so a
nearest-day bar silently substituted by the source is rejected. `probe` is
the last bar date of the frame, `none` for an empty frame or an exception. -/
def _df_has_exact_date (probe : Option Int) (d : Int) : Bool :=
  match probe with
  | some last => last == d
  | none => false

/-- Loop body of `_next_business_day`: probe `d+1, d+2, ...` for at most `k`
steps and return the first exact match. -/
def nextScan (src : Int → Option Int) : Int → Nat → Option Int
  | _, 0 => none
  | d, k + 1 =>
    if _df_has_exact_date (src (d + 1)) (d + 1) then some (d + 1)
    else nextScan src (d + 1) k

/-- `_next_business_day(yyyymmdd)` from app.py: `for i in range(1, 60)`
probes the 59 days strictly after the input that lie in its 60-calendar-day
window. -/
def _next_business_day (src : Int → Option Int) (base : Int) : Option Int :=
  nextScan src base 59

/-- Loop body of `_prev_business_day`: probe `d, d-1, ...` for at most `k`
steps and return the first exact match. -/
def prevScan (src : Int → Option Int) : Int → Nat → Option Int
  | _, 0 => none
  | d, k + 1 =>
    if _df_has_exact_date (src d) d then some d
    else prevScan src (d - 1) k

/-- `_prev_business_day(yyyymmdd)` from app.py: `for i in range(0, 60)`
probes the input day and the 59 days before it. -/
def _prev_business_day (src : Int → Option Int) (base : Int) : Option Int :=
  prevScan src base 60

/-- `nextScan` instrumented with the number of price-source probes made. -/
def nextScanT (src : Int → Option Int) : Int → Nat → Option Int × Nat
  | _, 0 => (none, 0)
  | d, k + 1 =>
    if _df_has_exact_date (src (d + 1)) (d + 1) then (some (d + 1), 1)
    else
      let t := nextScanT src (d + 1) k
      (t.1, t.2 + 1)

/-- `prevScan` instrumented with the number of price-source probes made. -/
def prevScanT (src : Int → Option Int) : Int → Nat → Option Int × Nat
  | _, 0 => (none, 0)
  | d, k + 1 =>
    if _df_has_exact_date (src d) d then (some d, 1)
    else
      let t := prevScanT src (d - 1) k
      (t.1, t.2 + 1)

/-- Process-lifetime cache of `_next_business_day` results, the only cache
attached to the two calendar resolvers in app.py (its `@lru_cache(maxsize=64)`;
`_prev_business_day` carries no cache decorator). -/
abbrev NextBDCache : Type := List (Int × Option Int)

/-- Lookup of a resolved key in the cache. -/
def cacheFind (d : Int) : NextBDCache → Option (Option Int)
  | [] => none
  | (k, v) :: rest => if k = d then some v else cacheFind d rest

/-- One call of the memoized `_next_business_day`: return the cached value
with zero probes on a hit, otherwise run the scan, cache its result and
report the probes made. -/
def callNextBD (src : Int → Option Int) (cache : NextBDCache) (d : Int) :
    Option Int × NextBDCache × Nat :=
  match cacheFind d cache with
  | some v => (v, cache, 0)
  | none =>
    let t := nextScanT src d 59
    (t.1, ((d, t.1) :: cache : NextBDCache), t.2)

/-- One call of `_prev_business_day`: the function is undecorated, so every
call runs the backward scan afresh and the process state is untouched. -/
def callPrevBD (src : Int → Option Int) (cache : NextBDCache) (d : Int) :
    Option Int × NextBDCache × Nat :=
  let t := prevScanT src d 60
  (t.1, cache, t.2)

/-- `_ohlcv_one_day(yyyymmdd, ticker)` from app.py: a per-instrument
single-day fetch. `raw` is the price source's (close, high) answer; an
empty frame, a missing column or an exception is `none`, and a bar whose
close is zero is discarded. -/
def _ohlcv_one_day (raw : Int → String → Option (ℚ × ℚ)) (d : Int) (t : String) :
    Option (ℚ × ℚ) :=
  match raw d t with
  | none => none
  | some (c, h) => if c = 0 then none else some (c, h)

/-- A preview row as enriched in place by
`_enrich_rows_with_forward_metrics`; only the fields that function reads or
writes are modelled, each `none` meaning the key is absent from the dict. -/
structure PreviewRow where
  code : String
  d1_close_rate : Option String
  d1_high_rate : Option String
  d1_next_close : Option String
  d1_next_high : Option String
deriving DecidableEq

/-- The forward context handed to `_enrich_rows_with_forward_metrics`:
`bulkBase`/`bulkNext` are the indexed bulk frames with their resolved
columns when `ctx["ok"]` and the frames are present (`f code` is the coerced
cell content for an indexed code, `none` when the code is absent from the
frame's index), `base8`/`next8` the resolved trading days, and `raw` the
per-instrument fallback source. -/
structure EnrichCtx where
  bulkBase : Option (String → Option ℚ)
  bulkNext : Option (String → Option (ℚ × ℚ))
  base8 : Option Int
  next8 : Option Int
  raw : Int → String → Option (ℚ × ℚ)

/-- Value resolution of one row inside `_enrich_rows_with_forward_metrics`:
the bulk path applies when both frames carry the code, otherwise the
per-code single-day fallback runs; the result is (base close, next close,
next high). -/
def resolveVals (ctx : EnrichCtx) (code : String) : Option (ℚ × ℚ × ℚ) :=
  let fallback :=
    match ctx.base8, ctx.next8 with
    | some b8, some n8 =>
      match _ohlcv_one_day ctx.raw b8 code, _ohlcv_one_day ctx.raw n8 code with
      | some b, some n => some (b.1, n.1, n.2)
      | _, _ => none
    | _, _ => none
  match ctx.bulkBase, ctx.bulkNext with
  | some fb, some fn =>
    match fb code, fn code with
    | some bc, some nn => some (bc, nn.1, nn.2)
    | _, _ => fallback
  | _, _ => fallback

/-- Per-row body of `_enrich_rows_with_forward_metrics` from app.py: skip
rows without a normalizable code, rows whose values cannot be resolved, and
rows whose base close is zero or negative; otherwise attach the two
forward-return percentages and the next-day close/high. -/
def enrichRow (ctx : EnrichCtx) (r : PreviewRow) : PreviewRow :=
  let code := _norm_ticker r.code
  if code = "" then r
  else
    match resolveVals ctx code with
    | none => r
    | some (bc, nc, nh) =>
      if bc ≤ 0 then r
      else
        { r with
          d1_close_rate := some (fmtPct ((nc - bc) / bc * 100)),
          d1_high_rate := some (fmtPct ((nh - bc) / bc * 100)),
          d1_next_close := some (intStr nc),
          d1_next_high := some (intStr nh) }

/-- `_enrich_rows_with_forward_metrics(rows, ctx)`: every row is enriched
independently. -/
def _enrich_rows_with_forward_metrics (ctx : EnrichCtx) (rows : List PreviewRow) :
    List PreviewRow :=
  rows.map (enrichRow ctx)

/-- A context whose bulk frames resolve every code to the given base close
and next close/high, as in a single-instrument scenario. -/
def mkBulkCtx (bc nc nh : ℚ) : EnrichCtx :=
  { bulkBase := some (fun _ => some bc),
    bulkNext := some (fun _ => some (nc, nh)),
    base8 := none,
    next8 := none,
    raw := fun _ _ => none }

/-- One `(metric_sum, filename, title)` record of `_compute_ranked_themes`,
built from one theme CSV of the requested day. -/
structure ThemeRec where
  metric : Int
  filename : String
  title : String
deriving DecidableEq

/-- One entry of the ranked theme list returned by
`_compute_ranked_themes`. -/
structure RankedTheme where
  rank : Nat
  filename : String
  title : String
  trade_sum : Int
deriving DecidableEq

/-- The Python sort key `(-metric_sum, title, filename)` compared
lexicographically, exactly `records.sort(key=lambda x: (-x[0], x[2], x[1]))`. -/
def themeKey (t : ThemeRec) : Lex (Int × Lex (String × String)) :=
  toLex (-t.metric, toLex (t.title, t.filename))

/-- Order of theme records induced by the sort key. -/
abbrev themeRecLE (a b : ThemeRec) : Prop := themeKey a ≤ themeKey b

instance : IsTrans ThemeRec themeRecLE := ⟨fun _ _ _ h1 h2 => le_trans h1 h2⟩

instance : IsTotal ThemeRec themeRecLE := ⟨fun a b => le_total (themeKey a) (themeKey b)⟩

/-- The stable sort of the record list by the Python key (`list.sort` is a
stable sort, so any stable sort computes the same list). -/
def sortThemeRecs (recs : List ThemeRec) : List ThemeRec :=
  recs.insertionSort themeRecLE

/-- `_compute_ranked_themes` from app.py, starting from the per-file
`(metric_sum, filename, title)` records: sort by descending metric with
title-then-filename tie-breaks, and enumerate ranks from 1. -/
def _compute_ranked_themes (recs : List ThemeRec) : List RankedTheme :=
  (sortThemeRecs recs).enum.map
    (fun p => { rank := p.1 + 1, filename := p.2.filename,
                title := p.2.title, trade_sum := p.2.metric })

/-- The trade-value column of one theme CSV: the column name found by
`_pick_col(df, "거래대금")` (`none` when the frame has no such column) and
the column's cells as stored. -/
structure TvDf where
  tvCol : Option String
  rows : List String
deriving DecidableEq

/-- The cell cleanup `.str.replace(",", "").str.strip()` shared by the
metric sum and the sort key. -/
def cleanNum (s : String) : String :=
  pyStrip (String.mk (s.data.filter (fun c => c ≠ ',')))

/-- A cleaned cell coerced by `pd.to_numeric(errors="coerce")` with the
given `fillna` default for malformed values. -/
def toNumOr (dflt : ℚ) (s : String) : ℚ := (pdToNumeric (cleanNum s)).getD dflt

/-- `_compute_theme_metric_sum(df)` from app.py: sum the trade-value column
as it stands - its own comment records that even a "거래대금(백만)" column
is summed without the ×1,000,000 correction - with malformed cells coerced
to zero, and the float sum truncated by `int()`. -/
def _compute_theme_metric_sum (df : TvDf) : Int :=
  match df.tvCol with
  | none => 0
  | some _ => truncQ ((df.rows.map (toNumOr 0)).sum)

/-- Modelled from the spec: the aggregation the spec sentence describes,
with the ×1,000,000 correction applied to a "백만"-suffixed column before
summing; app.py contains no such corrected aggregation. -/
def specMetricSumCorrected (df : TvDf) : Int :=
  match df.tvCol with
  | none => 0
  | some col =>
    truncQ (((df.rows.map (toNumOr 0)).sum) *
      (if containsSub col "백만" then 1000000 else 1))

/-- The trade-value sort key of `_sort_df_for_response`: coerce with
fallback -1, then scale by 1,000,000 exactly when the column name carries
"백만". -/
def tvSortKey (mill : Bool) (s : String) : ℚ :=
  (if mill then 1000000 else 1) * toNumOr (-1) s

/-- Row order of the descending stable sort on the trade-value key. -/
abbrev tvDescLE (mill : Bool) (a b : String) : Prop :=
  tvSortKey mill b ≤ tvSortKey mill a

instance (mill : Bool) : IsTrans String (tvDescLE mill) :=
  ⟨fun _ _ _ h1 h2 => le_trans h2 h1⟩

instance (mill : Bool) : IsTotal String (tvDescLE mill) :=
  ⟨fun a b => (le_total (tvSortKey mill a) (tvSortKey mill b)).symm⟩

/-- The trade-value branch of `_sort_df_for_response(df, sort_key)` from
app.py: without a trade-value column the frame is returned as-is, otherwise
the rows are stably sorted descending (`kind="mergesort"`) on the corrected
comparison key while the stored cells themselves are untouched. -/
def _sort_df_for_response_trade_value (df : TvDf) : TvDf :=
  match df.tvCol with
  | none => df
  | some col =>
    { df with rows := df.rows.insertionSort (tvDescLE (containsSub col "백만")) }

/-- `RECORD_COLUMNS` from app.py: the current 19-column ledger schema. -/
def RECORD_COLUMNS : List String :=
  ["기록ID", "기록시각", "날짜", "테마명", "테마랭크", "테마파일", "차트링크",
   "종목명", "종목코드", "시가총액", "거래대금", "등락률", "알파값", "베타값",
   "익일거래일", "익일종가", "익일고가", "익일종가수익률", "익일고가수익률"]

/-- The in-memory image of record.csv: its header line and its data rows,
each row's cells aligned positionally with the header. -/
structure RecordFile where
  header : List String
  rows : List (List String)
deriving DecidableEq

/-- Index of the first column with the given name. -/
def colIndex (c : String) : List String → Option Nat
  | [] => none
  | h :: t => if h = c then some 0 else (colIndex c t).map (fun i => i + 1)

/-- Cell of a row under a header; a column absent from the header reads as
the empty string, as a freshly added `df[c] = ""` column does. -/
def cellOf (header row : List String) (c : String) : String :=
  match colIndex c header with
  | none => ""
  | some i => row.getD i ""

/-- One row after migration: every current column in schema order, the
identifier column replaced by the fresh `newId` when its stripped content
was empty. -/
def migratedRow (header row : List String) (newId : String) : List String :=
  RECORD_COLUMNS.map (fun c =>
    if c = "기록ID" ∧ pyStrip (cellOf header row "기록ID") = "" then newId
    else cellOf header row c)

/-- Migration of all rows, threading the supply of generated identifiers
(`uuid4().hex` values) through the rows that lack one. -/
def migrateRows (ids : Nat → String) (header : List String) :
    List (List String) → Nat → List (List String)
  | [], _ => []
  | row :: rest, j =>
    if pyStrip (cellOf header row "기록ID") = "" then
      migratedRow header row (ids j) :: migrateRows ids header rest (j + 1)
    else
      migratedRow header row "" :: migrateRows ids header rest j

/-- `_ensure_record_schema` from app.py: a file already carrying the
current header is left alone; a header that is not a subset of the current
schema is treated as user-edited and left alone; otherwise the file is
rewritten to the current schema with missing columns empty and missing
identifiers generated. -/
def _ensure_record_schema (ids : Nat → String) (f : RecordFile) : RecordFile :=
  if f.header = RECORD_COLUMNS then f
  else if ∀ h ∈ f.header, h ∈ RECORD_COLUMNS then
    { header := RECORD_COLUMNS, rows := migrateRows ids f.header f.rows 0 }
  else f

/-- `_refresh_state` from app.py, the process-wide refresh status record. -/
structure RefreshState where
  in_progress : Bool
  started_at : Option String
  ended_at : Option String
  last_result : Option String
  last_error : Option String
  refresh_id : Nat
deriving DecidableEq

/-- The orchestrator's shared state: the non-blocking `_refresh_lock`
together with `_refresh_state`. -/
structure OrchState where
  lock_held : Bool
  refresh : RefreshState
deriving DecidableEq

/-- Outcome of a `POST /api/refresh` call. -/
inductive RefreshResp where
  | disabled
  | badToken
  | conflict
  | started (refresh_id : Nat)
deriving DecidableEq

/-- `api_refresh` from app.py: refuse when disabled or the token fails;
then try the non-blocking lock - if it is already held answer 409 and touch
nothing; on success mark the run started and spawn the worker with
`refresh_id + 1`. The third component records whether a worker thread was
started. -/
def api_refresh (enabled tokenOk : Bool) (now : String) (o : OrchState) :
    RefreshResp × OrchState × Bool :=
  if ¬enabled then (RefreshResp.disabled, o, false)
  else if ¬tokenOk then (RefreshResp.badToken, o, false)
  else if o.lock_held then (RefreshResp.conflict, o, false)
  else
    let st := { o.refresh with
      in_progress := true,
      started_at := some now,
      ended_at := none,
      last_error := none }
    (RefreshResp.started (st.refresh_id + 1),
     { lock_held := true, refresh := st }, true)

/-- The `finally` block of `_refresh_worker` from app.py: store the
outcome, clear the in-progress flag, stamp the end time, record the run
identifier, and release the lock. -/
def _refresh_worker_finish (outcome : Except String String) (endTime : String)
    (localId : Nat) (o : OrchState) : OrchState :=
  let st := match outcome with
    | Except.ok r => { o.refresh with last_result := some r, last_error := none }
    | Except.error e => { o.refresh with last_error := some e }
  { lock_held := false,
    refresh :=
      { st with
        in_progress := false,
        ended_at := some endTime,
        refresh_id := localId } }

/-- The ledger-record payload as mutated by
`_recompute_next_ohlcv_for_record`; only the keys that function reads or
writes are modelled (a missing key reads as `""`). -/
structure Payload where
  date : String
  code : String
  next_trade_date : String
  next_close : String
  next_high : String
  d1_close_rate : String
  d1_high_rate : String
deriving DecidableEq

/-- The collaborators `_recompute_next_ohlcv_for_record` calls on yyyymmdd
date strings: the two calendar resolvers (verified above over day
ordinals) and the per-instrument one-day fetch. -/
structure RecordEnv where
  prevBD : String → Option String
  nextBD : String → Option String
  oneDay : String → String → Option (ℚ × ℚ)

/-- The regex check `^\d{n}$`. -/
def isDigitsOfLen (n : Nat) (l : List Char) : Bool :=
  l.length == n && l.all Char.isDigit

/-- The two guarded rate fills at the end of
`_recompute_next_ohlcv_for_record`: each return-rate field is written only
when currently empty. `b` and `n` are the base-day and next-day
(close, high) bars. -/
def recomputeRates (b n : ℚ × ℚ) (p2 : Payload) : Payload :=
  let p3 := if p2.d1_close_rate = "" then
      { p2 with d1_close_rate := fmtPct ((n.1 - b.1) / b.1 * 100) } else p2
  if p3.d1_high_rate = "" then
    { p3 with d1_high_rate := fmtPct ((n.2 - b.1) / b.1 * 100) } else p3

/-- The bar-fetching stage of `_recompute_next_ohlcv_for_record`, run on
the payload already stamped with the next trading day: fetch both bars,
stop if either is missing or the base close is not positive, otherwise
overwrite next close/high and run the guarded rate fills. -/
def recomputeWithNext (env : RecordEnv) (p1 : Payload) (base8 next8 : String) : Payload :=
  match env.oneDay base8 p1.code, env.oneDay next8 p1.code with
  | some b, some n =>
    if b.1 ≤ 0 then p1
    else recomputeRates b n { p1 with next_close := intStr n.1, next_high := intStr n.2 }
  | _, _ => p1

/-- Body of `_recompute_next_ohlcv_for_record` after date parsing: take the
previous business day of the date (or the date itself) as base, stop if no
next business day resolves, otherwise stamp `next_trade_date`
unconditionally and continue with the bar fetches. -/
def recomputeCore (env : RecordEnv) (p : Payload) (date8 : String) : Payload :=
  match env.nextBD ((env.prevBD date8).getD date8) with
  | none => p
  | some next8 =>
    recomputeWithNext env { p with next_trade_date := _yyyymmdd_to_yymmdd next8 }
      ((env.prevBD date8).getD date8) next8

/-- `_recompute_next_ohlcv_for_record(payload)` from app.py: do nothing
without a date and code, normalize the stored code, bring the date to
yyyymmdd (rewriting an 8-digit stored date to yymmdd), and run the
recomputation core; any failure on the way leaves the remaining fields as
they were. -/
def _recompute_next_ohlcv_for_record (env : RecordEnv) (p : Payload) : Payload :=
  let date := pyStrip p.date
  let code := pyStrip p.code
  if date = "" ∨ code = "" then p
  else
    let code6 := _norm_ticker code
    if code6 = "" then p
    else
      let p1 := { p with code := code6 }
      if isDigitsOfLen 6 date.data = true then
        let date8 := _yymmdd_to_yyyymmdd date
        if date8 = "" then p1 else recomputeCore env p1 date8
      else if isDigitsOfLen 8 date.data = true then
        recomputeCore env { p1 with date := _yyyymmdd_to_yymmdd date } date
      else p1

/-- A price environment in which 2024-01-02 is a trading day followed by
2024-01-03, the base bar being (close 100, high 105) and the next-day bar
(close 110, high 120). -/
def demoRecordEnv : RecordEnv :=
  { prevBD := fun _ => some "20240102",
    nextBD := fun _ => some "20240103",
    oneDay := fun d _ => if d = "20240103" then some (110, 120) else some (100, 105) }

theorem df_has_exact_date_iff (probe : Option Int) (d : Int) :
    _df_has_exact_date probe d = true ↔ probe = some d := by
  cases probe <;> simp [_df_has_exact_date]

theorem nextScanT_fst (src : Int → Option Int) :
    ∀ (k : Nat) (d : Int), (nextScanT src d k).1 = nextScan src d k := by
  intro k
  induction k with
  | zero => intro d; rfl
  | succ k ih =>
    intro d
    rw [nextScanT, nextScan]
    by_cases hp : _df_has_exact_date (src (d + 1)) (d + 1) = true
    · simp [hp]
    · simp [hp, ih]

theorem prevScanT_fst (src : Int → Option Int) :
    ∀ (k : Nat) (d : Int), (prevScanT src d k).1 = prevScan src d k := by
  intro k
  induction k with
  | zero => intro d; rfl
  | succ k ih =>
    intro d
    rw [prevScanT, prevScan]
    by_cases hp : _df_has_exact_date (src d) d = true
    · simp [hp]
    · simp [hp, ih]

theorem prevScanT_probes_pos (src : Int → Option Int) (d : Int) (k : Nat) (hk : k ≠ 0) :
    1 ≤ (prevScanT src d k).2 := by
  cases k with
  | zero => exact absurd rfl hk
  | succ k =>
    rw [prevScanT]
    by_cases hp : _df_has_exact_date (src d) d = true
    · simp [hp]
    · simp [hp]

theorem nextScan_some_spec (src : Int → Option Int) :
    ∀ (k : Nat) (d r : Int), nextScan src d k = some r →
      d < r ∧ r ≤ d + k ∧ src r = some r ∧ ∀ e : Int, d < e → e < r → src e ≠ some e := by
  intro k
  induction k with
  | zero => intro d r h; simp [nextScan] at h
  | succ k ih =>
    intro d r h
    rw [nextScan] at h
    by_cases hp : _df_has_exact_date (src (d + 1)) (d + 1) = true
    · rw [if_pos hp] at h
      obtain rfl : d + 1 = r := by injection h
      refine ⟨by omega, by omega, (df_has_exact_date_iff _ _).mp hp, ?_⟩
      intro e he1 he2
      omega
    · rw [if_neg hp] at h
      obtain ⟨h1, h2, h3, h4⟩ := ih (d + 1) r h
      refine ⟨by omega, by omega, h3, ?_⟩
      intro e he1 he2
      by_cases he : e = d + 1
      · subst he
        intro hc
        exact hp ((df_has_exact_date_iff _ _).mpr hc)
      · exact h4 e (by omega) he2

theorem nextScan_none_spec (src : Int → Option Int) :
    ∀ (k : Nat) (d : Int), nextScan src d k = none →
      ∀ e : Int, d < e → e ≤ d + k → src e ≠ some e := by
  intro k
  induction k with
  | zero => intro d _ e he1 he2; omega
  | succ k ih =>
    intro d h e he1 he2
    rw [nextScan] at h
    by_cases hp : _df_has_exact_date (src (d + 1)) (d + 1) = true
    · rw [if_pos hp] at h; exact absurd h (by simp)
    · rw [if_neg hp] at h
      by_cases he : e = d + 1
      · subst he
        intro hc
        exact hp ((df_has_exact_date_iff _ _).mpr hc)
      · exact ih (d + 1) h e (by omega) (by omega)

theorem cacheFind_eq_some (d : Int) :
    ∀ (c : NextBDCache) (v : Option Int), cacheFind d c = some v → (d, v) ∈ c := by
  intro c
  induction c with
  | nil => intro v h; simp [cacheFind] at h
  | cons p rest ih =>
    intro v h
    obtain ⟨k, w⟩ := p
    rw [cacheFind] at h
    by_cases hk : k = d
    · rw [if_pos hk] at h
      injection h with h'
      subst hk
      subst h'
      exact List.mem_cons_self _ _
    · rw [if_neg hk] at h
      exact List.mem_cons_of_mem _ (ih v h)

/-- C8: `_next_business_day` scans forward with exact-match probing inside
its 60-calendar-day window: a returned day is strictly after the input,
within the window, confirmed by an exact-match probe (so a silently
substituted nearest-day bar never qualifies), and is the first such day;
`none` means no day of the window strictly after the input probes exact. -/
theorem next_business_day_window_spec (src : Int → Option Int) (base : Int) :
    (∀ d : Int, _next_business_day src base = some d →
        base < d ∧ d < base + 60 ∧ src d = some d ∧
        ∀ e : Int, base < e → e < d → src e ≠ some e)
    ∧ (_next_business_day src base = none →
        ∀ d : Int, base < d → d < base + 60 → src d ≠ some d) := by
  constructor
  · intro d h
    obtain ⟨h1, h2, h3, h4⟩ := nextScan_some_spec src 59 base d h
    exact ⟨h1, by omega, h3, h4⟩
  · intro h d hd1 hd2
    exact nextScan_none_spec src 59 base h d hd1 (by omega)

/-- Witness for C8 at a price source that substitutes the nearest earlier
bar for non-trading days 1 and 2: the resolver skips them and returns
day 3, the first exact match after day 0. -/
theorem next_business_day_window_spec_witness :
    _next_business_day (fun d : Int => if d = 3 then some 3 else some (d - 1)) 0 = some 3
    ∧ (0 : Int) < 3
    ∧ (fun d : Int => if d = 3 then some 3 else some (d - 1)) 3 = some 3
    ∧ (fun d : Int => if d = 3 then some 3 else some (d - 1)) 1 ≠ some 1 := by
  have h := (next_business_day_window_spec
      (fun d : Int => if d = 3 then some 3 else some (d - 1)) 0).1 3 (by decide)
  exact ⟨by decide, h.1, h.2.2.1, h.2.2.2 1 (by decide) (by decide)⟩

/-- C2 fails as stated: `_prev_business_day` has no cache attached, so with
every day a trading day, a second call for the same key (day 0) probes the
price source again - one probe, not the zero probes a memoized second call
would make. -/
theorem prev_business_day_not_memoized :
    (callPrevBD (fun d : Int => some d)
        (callPrevBD (fun d : Int => some d) ([] : NextBDCache) 0).2.1 0).2.2 = 1
    ∧ (callPrevBD (fun d : Int => some d)
        (callPrevBD (fun d : Int => some d) ([] : NextBDCache) 0).2.1 0).2.2 ≠ 0 := by
  constructor
  · decide
  · decide

/-- C2 amended: only `_next_business_day` is memoized. From a well-formed
cache a call returns exactly the un-memoized scan's answer, an immediate
second call with the same key is a cache hit making zero probes, and
well-formedness is preserved; `_prev_business_day` leaves the process state
untouched and re-probes the source (at least one probe) on every call,
though each call still returns the pure backward-scan result. -/
theorem calendar_resolver_memoization (src : Int → Option Int) (cache : NextBDCache) (d : Int)
    (hwf : ∀ p ∈ cache, p.2 = _next_business_day src p.1) :
    (callNextBD src cache d).1 = _next_business_day src d
    ∧ callNextBD src (callNextBD src cache d).2.1 d
        = ((callNextBD src cache d).1, (callNextBD src cache d).2.1, 0)
    ∧ (∀ p ∈ (callNextBD src cache d).2.1, p.2 = _next_business_day src p.1)
    ∧ (callPrevBD src cache d).1 = _prev_business_day src d
    ∧ (callPrevBD src cache d).2.1 = cache
    ∧ 1 ≤ (callPrevBD src cache d).2.2 := by
  have hprev1 : (callPrevBD src cache d).1 = _prev_business_day src d := by
    simp [callPrevBD, _prev_business_day, prevScanT_fst]
  have hprev3 : 1 ≤ (callPrevBD src cache d).2.2 :=
    prevScanT_probes_pos src d 60 (by decide)
  cases hc : cacheFind d cache with
  | some v =>
    have hv : v = _next_business_day src d := hwf (d, v) (cacheFind_eq_some d cache v hc)
    refine ⟨?_, ?_, ?_, hprev1, rfl, hprev3⟩
    · simp [callNextBD, hc, hv]
    · simp [callNextBD, hc]
    · intro p hp
      have : (callNextBD src cache d).2.1 = cache := by simp [callNextBD, hc]
      rw [this] at hp
      exact hwf p hp
  | none =>
    have hnew : (callNextBD src cache d).2.1 = (d, (nextScanT src d 59).1) :: cache := by
      simp [callNextBD, hc]
    have hres : (callNextBD src cache d).1 = (nextScanT src d 59).1 := by
      simp [callNextBD, hc]
    refine ⟨?_, ?_, ?_, hprev1, rfl, hprev3⟩
    · rw [hres, nextScanT_fst]
      rfl
    · rw [hnew, hres]
      simp [callNextBD, cacheFind]
    · intro p hp
      rw [hnew] at hp
      rcases List.mem_cons.mp hp with h | h
      · subst h
        simp [nextScanT_fst, _next_business_day]
      · exact hwf p h

/-- Witness for the amended C2 theorem on the everyday-trading source with
an initially empty cache. -/
theorem calendar_resolver_memoization_witness :
    (callNextBD (fun d : Int => some d) ([] : NextBDCache) 7).1
      = _next_business_day (fun d : Int => some d) 7
    ∧ callNextBD (fun d : Int => some d)
        (callNextBD (fun d : Int => some d) ([] : NextBDCache) 7).2.1 7
      = ((callNextBD (fun d : Int => some d) ([] : NextBDCache) 7).1,
         (callNextBD (fun d : Int => some d) ([] : NextBDCache) 7).2.1, 0) := by
  have h := calendar_resolver_memoization (fun d : Int => some d) ([] : NextBDCache) 7
    (by intro p hp; cases hp)
  exact ⟨h.1, h.2.1⟩



/-- C5: for every enriched row the attached percentages follow
`closeToClose = (nextClose - baseClose) / baseClose * 100` and
`closeToHigh = (nextHigh - baseClose) / baseClose * 100`; base close 100
with next close 110 and next high 120 yields +10.00% and +20.00%, and base
close 0 leaves the row untouched, populating no forward-return field. -/
theorem forward_return_formula :
    (∀ (bc nc nh : ℚ) (r : PreviewRow), 0 < bc → _norm_ticker r.code ≠ "" →
        enrichRow (mkBulkCtx bc nc nh) r =
          { r with
            d1_close_rate := some (fmtPct ((nc - bc) / bc * 100)),
            d1_high_rate := some (fmtPct ((nh - bc) / bc * 100)),
            d1_next_close := some (intStr nc),
            d1_next_high := some (intStr nh) })
    ∧ (enrichRow (mkBulkCtx 100 110 120) ⟨"005930", none, none, none, none⟩).d1_close_rate
        = some "+10.00%"
    ∧ (enrichRow (mkBulkCtx 100 110 120) ⟨"005930", none, none, none, none⟩).d1_high_rate
        = some "+20.00%"
    ∧ (∀ (nc nh : ℚ) (r : PreviewRow), enrichRow (mkBulkCtx 0 nc nh) r = r) := by
  refine ⟨?_, ?_, ?_, ?_⟩
  · intro bc nc nh r h1 h2
    simp [enrichRow, mkBulkCtx, resolveVals, h2, not_le.mpr h1]
  · with_unfolding_all rfl
  · with_unfolding_all rfl
  · intro nc nh r
    by_cases hc : _norm_ticker r.code = ""
    · simp [enrichRow, hc]
    · simp [enrichRow, hc, mkBulkCtx, resolveVals]

/-- Witness for C5 at the base-close-100 scenario row. -/
theorem forward_return_formula_witness :
    (0 : ℚ) < 100 ∧ _norm_ticker "005930" ≠ ""
    ∧ enrichRow (mkBulkCtx 100 110 120) ⟨"005930", none, none, none, none⟩ =
        { (⟨"005930", none, none, none, none⟩ : PreviewRow) with
          d1_close_rate := some (fmtPct ((110 - 100) / 100 * 100)),
          d1_high_rate := some (fmtPct ((120 - 100) / 100 * 100)),
          d1_next_close := some (intStr 110),
          d1_next_high := some (intStr 120) } :=
  ⟨by norm_num, by decide,
    forward_return_formula.1 100 110 120 ⟨"005930", none, none, none, none⟩
      (by norm_num) (by decide)⟩

/-- C6: enrichment skips a row - leaving every forward field as it was -
whenever the row's values cannot be resolved (missing next-day close or
high, no usable source) or the base close is zero or negative; a row is
changed only when a strictly positive base close was resolved, so the
division by the base close is never a division by zero; and the
per-instrument fallback fetch never reports a bar with close 0. -/
theorem enrich_skip_safety (ctx : EnrichCtx) (r : PreviewRow) :
    (resolveVals ctx (_norm_ticker r.code) = none → enrichRow ctx r = r)
    ∧ (∀ bc nc nh : ℚ,
        resolveVals ctx (_norm_ticker r.code) = some (bc, nc, nh) → bc ≤ 0 →
        enrichRow ctx r = r)
    ∧ (enrichRow ctx r ≠ r →
        ∃ bc nc nh : ℚ, resolveVals ctx (_norm_ticker r.code) = some (bc, nc, nh)
          ∧ 0 < bc ∧ bc ≠ 0)
    ∧ (∀ (raw : Int → String → Option (ℚ × ℚ)) (d : Int) (t : String) (c h : ℚ),
        _ohlcv_one_day raw d t = some (c, h) → c ≠ 0) := by
  refine ⟨?_, ?_, ?_, ?_⟩
  · intro h
    by_cases hc : _norm_ticker r.code = ""
    · simp [enrichRow, hc]
    · simp [enrichRow, hc, h]
  · intro bc nc nh h hle
    by_cases hc : _norm_ticker r.code = ""
    · simp [enrichRow, hc]
    · simp [enrichRow, hc, h, hle]
  · intro hne
    by_cases hc : _norm_ticker r.code = ""
    · exact absurd (by simp [enrichRow, hc]) hne
    · cases hv : resolveVals ctx (_norm_ticker r.code) with
      | none => exact absurd (by simp [enrichRow, hc, hv]) hne
      | some v =>
        obtain ⟨bc, nc, nh⟩ := v
        by_cases hle : bc ≤ 0
        · exact absurd (by simp [enrichRow, hc, hv, hle]) hne
        · exact ⟨bc, nc, nh, rfl, lt_of_not_le hle, ne_of_gt (lt_of_not_le hle)⟩
  · intro raw d t c h hsome
    unfold _ohlcv_one_day at hsome
    cases hraw : raw d t with
    | none => rw [hraw] at hsome; cases hsome
    | some p =>
      obtain ⟨c0, h0⟩ := p
      rw [hraw] at hsome
      by_cases hz : c0 = 0
      · simp [hz] at hsome
      · simp [hz] at hsome
        obtain ⟨hcc, -⟩ := hsome
        rw [← hcc]
        exact hz

/-- Witness for C6: with no bulk frames and no usable source the row passes
through unchanged. -/
theorem enrich_skip_safety_witness :
    resolveVals ⟨none, none, none, none, fun _ _ => none⟩ (_norm_ticker "005930") = none
    ∧ enrichRow ⟨none, none, none, none, fun _ _ => none⟩ ⟨"005930", none, none, none, none⟩
      = ⟨"005930", none, none, none, none⟩ :=
  ⟨rfl,
    (enrich_skip_safety ⟨none, none, none, none, fun _ _ => none⟩
      ⟨"005930", none, none, none, none⟩).1 rfl⟩

theorem enumFrom_rank_map (l : List ThemeRec) :
    ∀ s : Nat, (List.enumFrom s l).map (fun p => p.1 + 1) = List.range' (s + 1) l.length := by
  induction l with
  | nil => intro s; rfl
  | cons a t ih =>
    intro s
    rw [List.enumFrom_cons, List.map_cons, ih (s + 1)]
    rfl

/-- C7: `_compute_ranked_themes` orders themes by descending aggregate
trade-value sum, ties broken by title then by source filename, both
ascending: the sorted records are a permutation of the input, the order is
sorted under that key, ranks run 1..n, the function is deterministic (two
calls on the same input agree), and two equal-metric themes titled
"Batteries" and "Autos" rank "Autos" first. -/
theorem ranked_themes_ordering (recs : List ThemeRec) :
    _compute_ranked_themes recs = _compute_ranked_themes recs
    ∧ (sortThemeRecs recs).Perm recs
    ∧ List.Sorted themeRecLE (sortThemeRecs recs)
    ∧ (_compute_ranked_themes recs).map (fun t => t.rank) = List.range' 1 recs.length
    ∧ _compute_ranked_themes [⟨500, "b.csv", "Batteries"⟩, ⟨500, "a.csv", "Autos"⟩]
        = [⟨1, "a.csv", "Autos", 500⟩, ⟨2, "b.csv", "Batteries", 500⟩] := by
  refine ⟨rfl, List.perm_insertionSort _ _, List.sorted_insertionSort _ _, ?_, ?_⟩
  · have h1 : (_compute_ranked_themes recs).map (fun t => t.rank)
        = (List.enumFrom 0 (sortThemeRecs recs)).map (fun p => p.1 + 1) := by
      simp [_compute_ranked_themes, List.map_map, List.enum, Function.comp]
    rw [h1, enumFrom_rank_map]
    simp [sortThemeRecs, List.length_insertionSort]
  · with_unfolding_all rfl

/-- C3 fails as stated: on a trade-value column named with the
"(백만)" (in millions) suffix holding 100 and 2, `_compute_theme_metric_sum`
aggregates the raw numbers to 102, not the ×1,000,000-corrected
102,000,000 the claim requires for aggregation; its own comment records
that the correction is deliberately not applied there. -/
theorem metric_sum_millions_not_corrected :
    _compute_theme_metric_sum ⟨some "거래대금(백만)", ["100", "2"]⟩ = 102
    ∧ specMetricSumCorrected ⟨some "거래대금(백만)", ["100", "2"]⟩ = 102000000
    ∧ _compute_theme_metric_sum ⟨some "거래대금(백만)", ["100", "2"]⟩
        ≠ specMetricSumCorrected ⟨some "거래대금(백만)", ["100", "2"]⟩ := by
  refine ⟨?_, ?_, ?_⟩
  · with_unfolding_all rfl
  · with_unfolding_all rfl
  · with_unfolding_all decide

/-- C3 amended: the ×1,000,000 "(백만)" correction is applied to the
comparison key when sorting by trade-value, while the rows the sort returns
are a permutation of the stored rows - the displayed values are never
rescaled - and the per-theme aggregate sums the raw, uncorrected values. -/
theorem trade_value_scaling (df : TvDf) (col : String) (hcol : df.tvCol = some col) :
    (_sort_df_for_response_trade_value df).rows.Perm df.rows
    ∧ List.Sorted (tvDescLE (containsSub col "백만"))
        (_sort_df_for_response_trade_value df).rows
    ∧ (_sort_df_for_response_trade_value df).tvCol = df.tvCol
    ∧ _compute_theme_metric_sum df = truncQ ((df.rows.map (toNumOr 0)).sum) := by
  obtain ⟨tv, rows⟩ := df
  simp only [] at hcol
  subst hcol
  exact ⟨List.perm_insertionSort _ _, List.sorted_insertionSort _ _, rfl, rfl⟩

/-- Witness for the amended C3 theorem on a two-row millions column. -/
theorem trade_value_scaling_witness :
    (⟨some "거래대금(백만)", ["100", "2"]⟩ : TvDf).tvCol = some "거래대금(백만)"
    ∧ (_sort_df_for_response_trade_value
        ⟨some "거래대금(백만)", ["100", "2"]⟩).rows.Perm ["100", "2"]
    ∧ _compute_theme_metric_sum ⟨some "거래대금(백만)", ["100", "2"]⟩
        = truncQ (((["100", "2"] : List String).map (toNumOr 0)).sum) := by
  have h := trade_value_scaling ⟨some "거래대금(백만)", ["100", "2"]⟩ "거래대금(백만)" rfl
  exact ⟨rfl, h.1, h.2.2.2⟩

/-- C4: a refresh trigger issued while a refresh is in progress (the
in-progress flag set and the non-blocking `_refresh_lock` held) answers
with the distinct 409 conflict, does not start a worker thread, and leaves
the state - in particular `refresh_id` - unchanged. -/
theorem refresh_single_flight (now : String) (o : OrchState)
    (hin : o.refresh.in_progress = true) (hlock : o.lock_held = true) :
    (api_refresh true true now o).1 = RefreshResp.conflict
    ∧ (api_refresh true true now o).2.1 = o
    ∧ (api_refresh true true now o).2.2 = false
    ∧ (api_refresh true true now o).2.1.refresh.refresh_id = o.refresh.refresh_id := by
  refine ⟨?_, ?_, ?_, ?_⟩ <;> simp [api_refresh, hlock]

/-- Witness for C4 on a concrete in-progress state with `refresh_id` 5. -/
theorem refresh_single_flight_witness :
    (api_refresh true true "t1"
        ⟨true, ⟨true, some "t0", none, none, none, 5⟩⟩).1 = RefreshResp.conflict
    ∧ (api_refresh true true "t1"
        ⟨true, ⟨true, some "t0", none, none, none, 5⟩⟩).2.1.refresh.refresh_id = 5 := by
  have h := refresh_single_flight "t1" ⟨true, ⟨true, some "t0", none, none, none, 5⟩⟩ rfl rfl
  exact ⟨h.1, by rw [h.2.1]⟩

theorem colIndex_lt_length_and_get (c : String) :
    ∀ (l : List String) (i : Nat), colIndex c l = some i →
      ∃ h : i < l.length, l.get ⟨i, h⟩ = c := by
  intro l
  induction l with
  | nil => intro i h; exact Option.noConfusion h
  | cons a t ih =>
    intro i h
    rw [colIndex] at h
    by_cases ha : a = c
    · rw [if_pos ha] at h
      injection h with h'
      subst h'
      exact ⟨Nat.succ_pos _, ha⟩
    · rw [if_neg ha] at h
      cases hi : colIndex c t with
      | none => rw [hi] at h; simp at h
      | some i0 =>
        rw [hi] at h
        injection h with h'
        subst h'
        obtain ⟨hlt, hget⟩ := ih i0 hi
        exact ⟨Nat.succ_lt_succ hlt, hget⟩

theorem colIndex_none_of_not_mem (c : String) :
    ∀ l : List String, c ∉ l → colIndex c l = none := by
  intro l
  induction l with
  | nil => intro _; rfl
  | cons a t ih =>
    intro h
    have ha : ¬(a = c) := fun he => h (List.mem_cons.mpr (Or.inl he.symm))
    rw [colIndex, if_neg ha, ih (fun hc => h (List.mem_cons_of_mem a hc))]
    rfl

theorem colIndex_isSome_of_mem (c : String) :
    ∀ l : List String, c ∈ l → colIndex c l ≠ none := by
  intro l
  induction l with
  | nil => intro h; cases h
  | cons a t ih =>
    intro h
    rw [colIndex]
    by_cases ha : a = c
    · simp [ha]
    · have hct : c ∈ t := by
        rcases List.mem_cons.mp h with h' | h'
        · exact absurd h'.symm ha
        · exact h'
      rw [if_neg ha]
      intro hmap
      cases hcol : colIndex c t with
      | none => exact ih hct hcol
      | some v => rw [hcol] at hmap; exact Option.noConfusion hmap

theorem cellOf_not_mem (header row : List String) (c : String) (h : c ∉ header) :
    cellOf header row c = "" := by
  unfold cellOf
  rw [colIndex_none_of_not_mem c header h]

theorem cellOf_map_self (f : String → String) (l : List String) (c : String) (hc : c ∈ l) :
    cellOf l (l.map f) c = f c := by
  unfold cellOf
  cases hi : colIndex c l with
  | none => exact absurd hi (colIndex_isSome_of_mem c l hc)
  | some i =>
    obtain ⟨hlt, hget⟩ := colIndex_lt_length_and_get c l i hi
    show (List.map f l).getD i "" = f c
    rw [List.getD_eq_getElem?_getD, List.getElem?_map, List.getElem?_eq_getElem hlt]
    show f (l.get ⟨i, hlt⟩) = f c
    rw [hget]

theorem cellOf_migratedRow (header row : List String) (x c : String)
    (hc : c ∈ RECORD_COLUMNS) :
    cellOf RECORD_COLUMNS (migratedRow header row x) c
      = if c = "기록ID" ∧ pyStrip (cellOf header row "기록ID") = "" then x
        else cellOf header row c := by
  unfold migratedRow
  exact cellOf_map_self _ RECORD_COLUMNS c hc

theorem migrateRows_length (ids : Nat → String) (header : List String) :
    ∀ (rows : List (List String)) (j : Nat),
      (migrateRows ids header rows j).length = rows.length := by
  intro rows
  induction rows with
  | nil => intro j; rfl
  | cons row rest ih =>
    intro j
    rw [migrateRows]
    by_cases hid : pyStrip (cellOf header row "기록ID") = ""
    · simp [hid, ih]
    · simp [hid, ih]

theorem migrateRows_mem (ids : Nat → String) (header : List String) :
    ∀ (rows : List (List String)) (j : Nat) (r : List String),
      r ∈ migrateRows ids header rows j →
      ∃ row, row ∈ rows ∧
        ((pyStrip (cellOf header row "기록ID") = "" ∧
            ∃ j0, r = migratedRow header row (ids j0))
         ∨ (pyStrip (cellOf header row "기록ID") ≠ "" ∧ r = migratedRow header row "")) := by
  intro rows
  induction rows with
  | nil => intro j r h; simp [migrateRows] at h
  | cons row rest ih =>
    intro j r h
    rw [migrateRows] at h
    by_cases hid : pyStrip (cellOf header row "기록ID") = ""
    · rw [if_pos hid] at h
      rcases List.mem_cons.mp h with rfl | h'
      · exact ⟨row, List.mem_cons_self _ _, Or.inl ⟨hid, j, rfl⟩⟩
      · obtain ⟨row0, hm, hp⟩ := ih (j + 1) r h'
        exact ⟨row0, List.mem_cons_of_mem _ hm, hp⟩
    · rw [if_neg hid] at h
      rcases List.mem_cons.mp h with rfl | h'
      · exact ⟨row, List.mem_cons_self _ _, Or.inr ⟨hid, rfl⟩⟩
      · obtain ⟨row0, hm, hp⟩ := ih j r h'
        exact ⟨row0, List.mem_cons_of_mem _ hm, hp⟩

/-- C9: `_ensure_record_schema` is idempotent - a second migration run is a
no-op whatever the file was; a header that is not a subset of the current
19-column schema leaves the file untouched; and a header forming a strict
subset is rewritten to the current schema with row count preserved,
columns absent from the old header reading empty, and every migrated row
carrying a non-blank identifier once the generator supplies non-blank
ones. -/
theorem ensure_record_schema_migration (ids ids2 : Nat → String) (f : RecordFile) :
    _ensure_record_schema ids2 (_ensure_record_schema ids f) = _ensure_record_schema ids f
    ∧ (¬(∀ h ∈ f.header, h ∈ RECORD_COLUMNS) → _ensure_record_schema ids f = f)
    ∧ ((∀ h ∈ f.header, h ∈ RECORD_COLUMNS) → (∃ c ∈ RECORD_COLUMNS, c ∉ f.header) →
        (_ensure_record_schema ids f).header = RECORD_COLUMNS
        ∧ (_ensure_record_schema ids f).rows.length = f.rows.length
        ∧ (∀ c ∈ RECORD_COLUMNS, c ∉ f.header → ¬(c = "기록ID") →
            ∀ r ∈ (_ensure_record_schema ids f).rows, cellOf RECORD_COLUMNS r c = "")
        ∧ ((∀ n, pyStrip (ids n) ≠ "") →
            ∀ r ∈ (_ensure_record_schema ids f).rows,
              pyStrip (cellOf RECORD_COLUMNS r "기록ID") ≠ "")) := by
  by_cases h1 : f.header = RECORD_COLUMNS
  · have hu : ∀ g : Nat → String, _ensure_record_schema g f = f := by
      intro g
      unfold _ensure_record_schema
      rw [if_pos h1]
    refine ⟨?_, fun _ => hu ids, ?_⟩
    · rw [hu ids, hu ids2]
    · rintro _ ⟨c, hcRC, hcH⟩
      exact absurd (by rw [h1]; exact hcRC) hcH
  · by_cases h2 : ∀ h ∈ f.header, h ∈ RECORD_COLUMNS
    · have hmig : _ensure_record_schema ids f
          = ⟨RECORD_COLUMNS, migrateRows ids f.header f.rows 0⟩ := by
        unfold _ensure_record_schema
        rw [if_neg h1, if_pos h2]
      refine ⟨?_, ?_, ?_⟩
      · rw [hmig]
        unfold _ensure_record_schema
        rw [if_pos rfl]
      · intro hns
        exact absurd h2 hns
      · intro _ _
        refine ⟨by rw [hmig], ?_, ?_, ?_⟩
        · rw [hmig]
          exact migrateRows_length ids f.header f.rows 0
        · intro c hcRC hcH hcID r hr
          rw [hmig] at hr
          obtain ⟨row, _, hp⟩ := migrateRows_mem ids f.header f.rows 0 r hr
          rcases hp with ⟨_, j0, rfl⟩ | ⟨_, rfl⟩
          · rw [cellOf_migratedRow f.header row (ids j0) c hcRC,
              if_neg (fun hx => hcID hx.1)]
            exact cellOf_not_mem f.header row c hcH
          · rw [cellOf_migratedRow f.header row "" c hcRC,
              if_neg (fun hx => hcID hx.1)]
            exact cellOf_not_mem f.header row c hcH
        · intro hids r hr
          rw [hmig] at hr
          obtain ⟨row, _, hp⟩ := migrateRows_mem ids f.header f.rows 0 r hr
          rcases hp with ⟨hid, j0, rfl⟩ | ⟨hid, rfl⟩
          · rw [cellOf_migratedRow f.header row (ids j0) "기록ID" (by decide),
              if_pos ⟨rfl, hid⟩]
            exact hids j0
          · rw [cellOf_migratedRow f.header row "" "기록ID" (by decide),
              if_neg (fun hx => hid hx.2)]
            exact hid
    · have hu : ∀ g : Nat → String, _ensure_record_schema g f = f := by
        intro g
        unfold _ensure_record_schema
        rw [if_neg h1, if_neg h2]
      refine ⟨?_, fun _ => hu ids, fun hsub _ => absurd hsub h2⟩
      rw [hu ids, hu ids2]

/-- Witness for C9 on a two-column old-schema ledger, one row lacking its
identifier. -/
theorem ensure_record_schema_migration_witness :
    (∀ h ∈ (⟨["날짜", "기록ID"], [["240101", ""], ["240102", "abc"]]⟩ : RecordFile).header,
        h ∈ RECORD_COLUMNS)
    ∧ (_ensure_record_schema (fun _ => "newid")
        ⟨["날짜", "기록ID"], [["240101", ""], ["240102", "abc"]]⟩).header = RECORD_COLUMNS
    ∧ _ensure_record_schema (fun _ => "newid")
        (_ensure_record_schema (fun _ => "newid")
          ⟨["날짜", "기록ID"], [["240101", ""], ["240102", "abc"]]⟩)
      = _ensure_record_schema (fun _ => "newid")
          ⟨["날짜", "기록ID"], [["240101", ""], ["240102", "abc"]]⟩ := by
  have h := ensure_record_schema_migration (fun _ => "newid") (fun _ => "newid")
      ⟨["날짜", "기록ID"], [["240101", ""], ["240102", "abc"]]⟩
  have h3 := h.2.2 (by decide) ⟨"기록시각", by decide, by decide⟩
  exact ⟨by decide, h3.1, h.1⟩

theorem digitPrefixLen_le_length : ∀ l : List Char, digitPrefixLen l ≤ l.length := by
  intro l
  induction l with
  | nil => exact Nat.le_refl 0
  | cons c r ih =>
    rw [digitPrefixLen]
    by_cases hc : c.isDigit = true
    · rw [if_pos hc]
      simpa using ih
    · rw [if_neg hc]
      exact Nat.zero_le _

theorem take_digits : ∀ (l : List Char) (k : Nat), k ≤ digitPrefixLen l →
    ∀ c ∈ l.take k, c.isDigit = true := by
  intro l
  induction l with
  | nil => intro k _ c hc; simp at hc
  | cons a t ih =>
    intro k hk c hc
    cases k with
    | zero => simp at hc
    | succ k =>
      rw [digitPrefixLen] at hk
      by_cases ha : a.isDigit = true
      · rw [if_pos ha] at hk
        rw [List.take_succ_cons] at hc
        rcases List.mem_cons.mp hc with rfl | hc'
        · exact ha
        · exact ih k (Nat.le_of_succ_le_succ hk) c hc'
      · rw [if_neg ha] at hk
        omega

theorem findTickerRun_some : ∀ l ds : List Char, findTickerRun l = some ds →
    5 ≤ ds.length ∧ ds.length ≤ 6 ∧ ∀ c ∈ ds, c.isDigit = true := by
  intro l
  induction l with
  | nil => intro ds h; exact Option.noConfusion h
  | cons a t ih =>
    intro ds h
    rw [findTickerRun] at h
    by_cases hp : 5 ≤ digitPrefixLen (a :: t)
    · rw [if_pos hp] at h
      injection h with h'
      subst h'
      have hlel := digitPrefixLen_le_length (a :: t)
      have hlen : ((a :: t).take (min (digitPrefixLen (a :: t)) 6)).length
          = min (digitPrefixLen (a :: t)) 6 := by
        rw [List.length_take]
        omega
      refine ⟨?_, ?_, ?_⟩
      · rw [hlen]; omega
      · rw [hlen]; omega
      · exact take_digits (a :: t) _ (min_le_left _ _)
    · rw [if_neg hp] at h
      exact ih ds h

theorem findTickerRun_none : ∀ l : List Char, maxDigitRun l < 5 → findTickerRun l = none := by
  intro l
  induction l with
  | nil => intro _; rfl
  | cons a t ih =>
    intro h
    rw [maxDigitRun] at h
    obtain ⟨h1, h2⟩ := Nat.max_lt.mp h
    rw [findTickerRun, if_neg (by omega)]
    exact ih h2

/-- C10: `_norm_ticker` returns either the empty string or a six-character
all-digit string; any input whose longest digit run (after stripping) is
shorter than five digits - such as "5930" - normalizes to the empty
string, in which case forward-return enrichment leaves the row unchanged
and the ledger backfill returns its payload unmodified. -/
theorem norm_ticker_normalization :
    (∀ s : String, _norm_ticker s = ""
        ∨ ((_norm_ticker s).length = 6 ∧ ∀ c ∈ (_norm_ticker s).data, c.isDigit = true))
    ∧ (∀ s : String, maxDigitRun (stripChars s.data) < 5 → _norm_ticker s = "")
    ∧ _norm_ticker "5930" = ""
    ∧ (∀ (ctx : EnrichCtx) (r : PreviewRow), _norm_ticker r.code = "" → enrichRow ctx r = r)
    ∧ (∀ (env : RecordEnv) (p : Payload), _norm_ticker (pyStrip p.code) = "" →
        _recompute_next_ohlcv_for_record env p = p) := by
  refine ⟨?_, ?_, ?_, ?_, ?_⟩
  · intro s
    unfold _norm_ticker
    cases hf : findTickerRun (stripChars s.data) with
    | none => exact Or.inl rfl
    | some ds =>
      obtain ⟨h5, h6, hdig⟩ := findTickerRun_some _ ds hf
      refine Or.inr ⟨?_, ?_⟩
      · show (List.replicate (6 - ds.length) '0' ++ ds).length = 6
        rw [List.length_append, List.length_replicate]
        omega
      · show ∀ c ∈ List.replicate (6 - ds.length) '0' ++ ds, c.isDigit = true
        intro c hc
        rcases List.mem_append.mp hc with hc' | hc'
        · rw [List.eq_of_mem_replicate hc']
          decide
        · exact hdig c hc'
  · intro s h
    unfold _norm_ticker
    rw [findTickerRun_none _ h]
  · decide
  · intro ctx r h
    simp [enrichRow, h]
  · intro env p h
    unfold _recompute_next_ohlcv_for_record
    by_cases hd : pyStrip p.date = "" ∨ pyStrip p.code = ""
    · simp [hd]
    · simp [hd, h]

/-- Witness for C10 at the four-digit code "5930": enrichment and backfill
both pass their inputs through unchanged. -/
theorem norm_ticker_normalization_witness :
    maxDigitRun (stripChars ("5930" : String).data) < 5
    ∧ _norm_ticker "5930" = ""
    ∧ enrichRow ⟨none, none, none, none, fun _ _ => none⟩ ⟨"5930", none, none, none, none⟩
        = ⟨"5930", none, none, none, none⟩
    ∧ _recompute_next_ohlcv_for_record
        ⟨fun _ => none, fun _ => none, fun _ _ => none⟩
        ⟨"240102", "5930", "", "", "", "", ""⟩
      = ⟨"240102", "5930", "", "", "", "", ""⟩ := by
  refine ⟨by decide, norm_ticker_normalization.2.2.1, ?_, ?_⟩
  · exact norm_ticker_normalization.2.2.2.1 ⟨none, none, none, none, fun _ _ => none⟩
      ⟨"5930", none, none, none, none⟩ (by decide)
  · exact norm_ticker_normalization.2.2.2.2 ⟨fun _ => none, fun _ => none, fun _ _ => none⟩
      ⟨"240102", "5930", "", "", "", "", ""⟩ (by decide)

theorem recomputeRates_keeps_close_rate (b n : ℚ × ℚ) (p2 : Payload)
    (h : p2.d1_close_rate ≠ "") :
    (recomputeRates b n p2).d1_close_rate = p2.d1_close_rate := by
  by_cases h2 : p2.d1_high_rate = "" <;> simp [recomputeRates, h, h2]

theorem recomputeRates_keeps_high_rate (b n : ℚ × ℚ) (p2 : Payload)
    (h : p2.d1_high_rate ≠ "") :
    (recomputeRates b n p2).d1_high_rate = p2.d1_high_rate := by
  by_cases h2 : p2.d1_close_rate = "" <;> simp [recomputeRates, h, h2]

theorem recomputeWithNext_keeps_close_rate (env : RecordEnv) (p1 : Payload)
    (base8 next8 : String) (h : p1.d1_close_rate ≠ "") :
    (recomputeWithNext env p1 base8 next8).d1_close_rate = p1.d1_close_rate := by
  unfold recomputeWithNext
  cases hb : env.oneDay base8 p1.code with
  | none => rfl
  | some b =>
    cases hn : env.oneDay next8 p1.code with
    | none => rfl
    | some n =>
      by_cases hble : b.1 ≤ 0
      · simp [hble]
      · simp only [hble, if_false, ite_false]
        exact recomputeRates_keeps_close_rate b n _ h

theorem recomputeWithNext_keeps_high_rate (env : RecordEnv) (p1 : Payload)
    (base8 next8 : String) (h : p1.d1_high_rate ≠ "") :
    (recomputeWithNext env p1 base8 next8).d1_high_rate = p1.d1_high_rate := by
  unfold recomputeWithNext
  cases hb : env.oneDay base8 p1.code with
  | none => rfl
  | some b =>
    cases hn : env.oneDay next8 p1.code with
    | none => rfl
    | some n =>
      by_cases hble : b.1 ≤ 0
      · simp [hble]
      · simp only [hble, if_false, ite_false]
        exact recomputeRates_keeps_high_rate b n _ h

theorem recomputeCore_keeps_close_rate (env : RecordEnv) (p : Payload) (date8 : String)
    (h : p.d1_close_rate ≠ "") :
    (recomputeCore env p date8).d1_close_rate = p.d1_close_rate := by
  unfold recomputeCore
  cases hnb : env.nextBD ((env.prevBD date8).getD date8) with
  | none => rfl
  | some next8 => exact recomputeWithNext_keeps_close_rate env _ _ _ h

theorem recomputeCore_keeps_high_rate (env : RecordEnv) (p : Payload) (date8 : String)
    (h : p.d1_high_rate ≠ "") :
    (recomputeCore env p date8).d1_high_rate = p.d1_high_rate := by
  unfold recomputeCore
  cases hnb : env.nextBD ((env.prevBD date8).getD date8) with
  | none => rfl
  | some next8 => exact recomputeWithNext_keeps_high_rate env _ _ _ h

/-- C1 fails as stated: on a payload whose next-close column already holds
the non-empty value "999", a successful backfill recomputation overwrites
it with the freshly computed "110" - the function does not restrict itself
to the empty forward-return fields. -/
theorem record_backfill_overwrites_nonempty :
    (_recompute_next_ohlcv_for_record demoRecordEnv
        ⟨"240102", "005930", "", "999", "", "", ""⟩).next_close = "110"
    ∧ (⟨"240102", "005930", "", "999", "", "", ""⟩ : Payload).next_close = "999"
    ∧ ("110" : String) ≠ "999" :=
  ⟨by with_unfolding_all rfl, rfl, by decide⟩

/-- C1 amended: the backfill fills the two return-rate fields only when
they are currently empty and never changes them otherwise, but the other
three forward fields - next trading day, next close, next high - are
recomputed and written unconditionally on every successful resolution,
replacing whatever they held. -/
theorem record_backfill_fill_policy (env : RecordEnv) (p : Payload) :
    (p.d1_close_rate ≠ "" →
        (_recompute_next_ohlcv_for_record env p).d1_close_rate = p.d1_close_rate)
    ∧ (p.d1_high_rate ≠ "" →
        (_recompute_next_ohlcv_for_record env p).d1_high_rate = p.d1_high_rate)
    ∧ _recompute_next_ohlcv_for_record demoRecordEnv
        ⟨"240102", "005930", "991231", "888", "777", "+1.00%", "+2.00%"⟩
      = ⟨"240102", "005930", "240103", "110", "120", "+1.00%", "+2.00%"⟩
    ∧ _recompute_next_ohlcv_for_record demoRecordEnv
        ⟨"240102", "005930", "", "", "", "", ""⟩
      = ⟨"240102", "005930", "240103", "110", "120", "+10.00%", "+20.00%"⟩ := by
  refine ⟨?_, ?_, ?_, ?_⟩
  · intro h
    unfold _recompute_next_ohlcv_for_record
    by_cases hd : pyStrip p.date = "" ∨ pyStrip p.code = ""
    · simp [hd]
    · by_cases hc : _norm_ticker (pyStrip p.code) = ""
      · simp [hd, hc]
      · by_cases h6 : isDigitsOfLen 6 (pyStrip p.date).data = true
        · by_cases h8 : _yymmdd_to_yyyymmdd (pyStrip p.date) = ""
          · simp [hd, hc, h6, h8]
          · simp only [hd, hc, h6, h8]
            simp only [if_false, if_true, ite_true, ite_false]
            exact recomputeCore_keeps_close_rate env _ _ h
        · by_cases h8 : isDigitsOfLen 8 (pyStrip p.date).data = true
          · simp only [hd, hc, h6, h8]
            simp only [if_false, if_true, ite_true, ite_false]
            exact recomputeCore_keeps_close_rate env _ _ h
          · simp [hd, hc, h6, h8]
  · intro h
    unfold _recompute_next_ohlcv_for_record
    by_cases hd : pyStrip p.date = "" ∨ pyStrip p.code = ""
    · simp [hd]
    · by_cases hc : _norm_ticker (pyStrip p.code) = ""
      · simp [hd, hc]
      · by_cases h6 : isDigitsOfLen 6 (pyStrip p.date).data = true
        · by_cases h8 : _yymmdd_to_yyyymmdd (pyStrip p.date) = ""
          · simp [hd, hc, h6, h8]
          · simp only [hd, hc, h6, h8]
            simp only [if_false, if_true, ite_true, ite_false]
            exact recomputeCore_keeps_high_rate env _ _ h
        · by_cases h8 : isDigitsOfLen 8 (pyStrip p.date).data = true
          · simp only [hd, hc, h6, h8]
            simp only [if_false, if_true, ite_true, ite_false]
            exact recomputeCore_keeps_high_rate env _ _ h
          · simp [hd, hc, h6, h8]
  · with_unfolding_all rfl
  · with_unfolding_all rfl

/-- Witness for the amended C1 theorem: a non-empty close-rate survives a
successful backfill unchanged. -/
theorem record_backfill_fill_policy_witness :
    ("+1.00%" : String) ≠ ""
    ∧ (_recompute_next_ohlcv_for_record demoRecordEnv
        ⟨"240102", "005930", "", "", "", "+1.00%", ""⟩).d1_close_rate = "+1.00%" := by
  have h := (record_backfill_fill_policy demoRecordEnv
      ⟨"240102", "005930", "", "", "", "+1.00%", ""⟩).1 (by decide)
  exact ⟨by decide, h⟩

end TemaWeb
